import Mathlib

/-!
Verification development for the `lawl` templating engine (`src/src/lib.rs`).

The engine streams an HTML template through a rewriter that recognizes the
reserved `lua` element, executes the element's `code` attribute as a Lua
script with the global `data` bound to the slot's literal content, and
splices the post-script value of `data` in place of the whole element.

Shallow embedding conventions:
* Strings are modelled as Lean `String`s (lists of characters); the Rust code
  slices byte offsets, which coincide with character offsets on the ASCII
  templates considered here.
* The Lua virtual machine is an external collaborator; the execution of an
  arbitrary `code` script is modelled by a parameter
  `exec : String → LuaState → Except String LuaState` (an `.error` models
  both a parse failure and a runtime error of `lua.load(&e).exec()`).
  The five prelude functions, whose Lua sources are literally in the
  repository (`Environment::default`), are modelled as Lean functions.
* A Rust panic (the code uses `.expect(...)` on script failure) is modelled
  as the `.error` branch of `Except`: it aborts the render and no output
  string is produced.
-/

/-- The scripting engine's value domain (spec §3 "Dynamic Value"):
null / boolean / number / string / table (array part plus string-keyed
mapping part). -/
inductive LuaValue where
  | nil
  | boolean (b : Bool)
  | num (n : Int)
  | str (s : String)
  | table (arr : List LuaValue) (map : List (String × LuaValue))

/-- Lua truthiness: `nil` and `false` are falsy, everything else truthy. -/
def luaTruthy : LuaValue → Bool
  | .nil => false
  | .boolean b => b
  | _ => true

/-- Lua `a or b`: `a` if truthy, otherwise `b`. -/
def luaOr (a b : LuaValue) : LuaValue :=
  if luaTruthy a then a else b

/-- Lua `v == ''`: true exactly for the empty string.  Values of different
types are never `==`-equal in Lua, and a table is never equal to a string. -/
def luaEqEmpty : LuaValue → Bool
  | .str s => s == ""
  | _ => false

/-- The `show` prelude function, from the source string
`function show(v) if (v or '') == '' then data = '' end end`
(src/src/lib.rs line 54), acting on the current value of `data`. -/
def showFn (v : LuaValue) (data : String) : String :=
  if luaEqEmpty (luaOr v (.str "")) then "" else data

/-- The `hide` prelude function, from the source string
`function hide(v) if (v or '') ~= '' then data = '' end end`
(src/src/lib.rs line 55), acting on the current value of `data`. -/
def hideFn (v : LuaValue) (data : String) : String :=
  if !luaEqEmpty (luaOr v (.str "")) then "" else data

/-- A character matched by the Lua character class `[a-zA-Z_]` in the
pattern `%$([a-zA-Z_]+)` used by the `each` prelude function. -/
def isNameChar (c : Char) : Bool :=
  c.isAlpha || c == '_'

/-- Lookup of a string key in the mapping part of a Lua table, as performed
by `string.gsub` when its replacement argument is a table. -/
def luaField (map : List (String × LuaValue)) (name : String) : Option LuaValue :=
  List.lookup name map

/-- The replacement `string.gsub` produces for one matched token `$name`
(match text `'$' :: acc`) when the replacement argument is the table `map`:
a string or number field value is substituted (a number via its decimal
form), a `nil`/`false`/absent field keeps the whole match, and any other
field value raises a Lua runtime error ("invalid replacement value").
An empty `acc` means the `$` was not followed by a name character, so the
pattern `%$([a-zA-Z_]+)` did not match and the `$` is kept as plain text. -/
def tokOut (map : List (String × LuaValue)) (acc : List Char) :
    Except String (List Char) :=
  if acc.isEmpty then .ok ['$']
  else
    match luaField map (String.mk acc) with
    | some (.str v) => .ok v.data
    | some (.num n) => .ok (toString n).data
    | some .nil => .ok ('$' :: acc)
    | some (.boolean false) => .ok ('$' :: acc)
    | none => .ok ('$' :: acc)
    | some _ => .error "invalid replacement value (a table)"

/-- Left-to-right scan of `template:gsub('%$([a-zA-Z_]+)', post)` with a
table replacement argument.  The second argument is `none` outside a
candidate match and `some acc` when the characters `'$' :: acc` of a
candidate match have been consumed (the `+` is greedy, so the name extends
as far as name characters go). -/
def gsubAux (map : List (String × LuaValue)) :
    List Char → Option (List Char) → Except String (List Char)
  | [], none => .ok []
  | [], some acc => tokOut map acc
  | c :: rest, none =>
      if c == '$' then gsubAux map rest (some [])
      else (c :: ·) <$> gsubAux map rest none
  | c :: rest, some acc =>
      if isNameChar c then gsubAux map rest (some (acc ++ [c]))
      else do
        let pre ← tokOut map acc
        let suf ←
          if c == '$' then gsubAux map rest (some [])
          else (c :: ·) <$> gsubAux map rest none
        .ok (pre ++ suf)

/-- `template:gsub('%$([a-zA-Z_]+)', post)` for a table `post`, as used by
the `each` prelude function (src/src/lib.rs line 58). -/
def gsubStr (template : String) (post : List (String × LuaValue)) :
    Except String String :=
  String.mk <$> gsubAux post template.data none

/-- The loop of the `each` prelude function:
`for _, post in ipairs(k) do data = data .. template:gsub('%$([a-zA-Z_]+)', post) end`,
with `template` the saved original `data` and the accumulator the current
`data` (initially cleared to `''`). -/
def eachGo : List (List (String × LuaValue)) → String → String →
    Except String String
  | [], _, acc => .ok acc
  | post :: rest, template, acc =>
      match gsubStr template post with
      | .ok r => eachGo rest template (acc ++ r)
      | .error e => .error e

/-- The `each` prelude function, from the source string
`function each(k) local template = data; data = ''; for _, post in ipairs(k) do data = data .. template:gsub('%$([a-zA-Z_]+)', post) end end`
(src/src/lib.rs line 58).  Its argument is, per the spec, an ordered
sequence of mapping values; each mapping is given by its fields. -/
def eachFn (items : List (List (String × LuaValue))) (data : String) :
    Except String String :=
  eachGo items data ""

/-- Spec-side replacement for one token: a defined field substitutes its
value, an undefined one leaves the matched text `$name` verbatim. -/
def tokOutSpec (f : String → Option String) (acc : List Char) : List Char :=
  if acc.isEmpty then ['$']
  else
    match f (String.mk acc) with
    | some v => v.data
    | none => '$' :: acc

/-- Spec-side scan mirroring the token grammar `$[a-zA-Z_]+`: every token
whose name `f` defines is replaced by `f name`, every other byte — including
tokens with no defined field — passes through verbatim. -/
def rtsAux (f : String → Option String) :
    List Char → Option (List Char) → List Char
  | [], none => []
  | [], some acc => tokOutSpec f acc
  | c :: rest, none =>
      if c == '$' then rtsAux f rest (some [])
      else c :: rtsAux f rest none
  | c :: rest, some acc =>
      if isNameChar c then rtsAux f rest (some (acc ++ [c]))
      else
        tokOutSpec f acc ++
          (if c == '$' then rtsAux f rest (some [])
           else c :: rtsAux f rest none)

/-- Spec-side interpolation of a sub-template (written from the spec's
words): each token `$name` with `name` matching `[a-zA-Z_]+` is replaced by
`f name` when defined and kept verbatim otherwise. -/
def replaceTokensSpec (f : String → Option String) (template : String) :
    String :=
  String.mk (rtsAux f template.data none)

/-- The string a table field contributes as a `gsub` replacement: a string
field itself, a number field via its decimal form, nothing otherwise. -/
def fieldStr (post : List (String × LuaValue)) (name : String) :
    Option String :=
  match luaField post name with
  | some (.str v) => some v
  | some (.num n) => some (toString n)
  | _ => none

/-- Field values `string.gsub` accepts from a replacement table without
raising a runtime error: strings, numbers, `nil` and `false`. -/
def replOk : LuaValue → Bool
  | .table _ _ => false
  | .boolean b => !b
  | _ => true

theorem luaField_mem {post : List (String × LuaValue)} {n : String}
    {v : LuaValue} (h : luaField post n = some v) : (n, v) ∈ post := by
  induction post with
  | nil => simp [luaField, List.lookup] at h
  | cons kv rest ih =>
      obtain ⟨k, w⟩ := kv
      simp only [luaField, List.lookup] at h
      cases hkn : (n == k) with
      | true =>
          rw [hkn] at h
          injection h with h
          have hk : n = k := by simpa using hkn
          subst hk; subst h
          exact List.mem_cons_self _ _
      | false =>
          rw [hkn] at h
          exact List.mem_cons_of_mem _ (ih h)

theorem tokOut_eq_spec (post : List (String × LuaValue)) (acc : List Char)
    (H : ∀ kv ∈ post, replOk kv.2) :
    tokOut post acc = .ok (tokOutSpec (fieldStr post) acc) := by
  unfold tokOut tokOutSpec fieldStr
  by_cases hacc : acc.isEmpty
  · simp [hacc]
  · simp only [hacc, if_false]
    rcases hv : luaField post (String.mk acc) with _ | v
    · simp
    · have hmem := luaField_mem hv
      have := H _ hmem
      cases v with
      | nil => simp
      | boolean b => cases b <;> simp_all [replOk]
      | num n => simp
      | str s => simp
      | table a m => simp [replOk] at this

theorem gsubAux_eq_spec (post : List (String × LuaValue))
    (H : ∀ kv ∈ post, replOk kv.2) :
    ∀ (l : List Char) (m : Option (List Char)),
      gsubAux post l m = .ok (rtsAux (fieldStr post) l m) := by
  intro l
  induction l with
  | nil =>
      intro m
      cases m with
      | none => rfl
      | some acc => exact tokOut_eq_spec post acc H
  | cons c rest ih =>
      intro m
      cases m with
      | none =>
          simp only [gsubAux, rtsAux]
          by_cases hc : c == '$'
          · simp [hc, ih]
          · simp [hc, ih]
      | some acc =>
          simp only [gsubAux, rtsAux]
          by_cases hn : isNameChar c
          · simp [hn, ih]
          · have ht := tokOut_eq_spec post acc H
            by_cases hc : c == '$' <;>
              · simp [hn, hc, ih, ht, Except.bind]
                rfl

/-- Helper: `template:gsub('%$([a-zA-Z_]+)', post)` succeeds and agrees with
the spec-side interpolation whenever all field values of `post` are
acceptable replacement values. -/
theorem gsubStr_eq_spec (template : String) (post : List (String × LuaValue))
    (H : ∀ kv ∈ post, replOk kv.2) :
    gsubStr template post = .ok (replaceTokensSpec (fieldStr post) template) := by
  unfold gsubStr replaceTokensSpec
  rw [gsubAux_eq_spec post H]
  rfl

/-- Spec-side concatenation, in element order. -/
def concatAll : List String → String
  | [] => ""
  | s :: l => s ++ concatAll l

theorem eachGo_eq_spec (template : String)
    (items : List (List (String × LuaValue)))
    (H : ∀ post ∈ items, ∀ kv ∈ post, replOk kv.2) :
    ∀ acc : String,
      eachGo items template acc =
        .ok (acc ++ concatAll (items.map
          (fun post => replaceTokensSpec (fieldStr post) template))) := by
  induction items with
  | nil => intro acc; simp [eachGo, concatAll]
  | cons post rest ih =>
      intro acc
      have hpost : ∀ kv ∈ post, replOk kv.2 := H post (by simp)
      have hrest : ∀ p ∈ rest, ∀ kv ∈ p, replOk kv.2 :=
        fun p hp => H p (List.mem_cons_of_mem _ hp)
      simp only [eachGo, gsubStr_eq_spec template post hpost]
      rw [ih hrest]
      simp [concatAll, String.append_assoc]

/-- C7: `each(items)` reassigns `data` to the concatenation, in element
order, of one copy of the original `data` per element, in which every token
`$name` (name matching `[a-zA-Z_]+`) is replaced by that element's field
named `name` (per `replaceTokensSpec`/`fieldStr`).  The hypothesis restricts
the elements' field values to ones `string.gsub` accepts as replacements. -/
theorem eachFn_concat_spec (items : List (List (String × LuaValue)))
    (data : String)
    (H : ∀ post ∈ items, ∀ kv ∈ post, replOk kv.2) :
    eachFn items data =
      .ok (concatAll (items.map
        (fun post => replaceTokensSpec (fieldStr post) data))) := by
  unfold eachFn
  rw [eachGo_eq_spec data items H ""]
  simp

/-- Witness for C7, the spec's own example: three mapping entries and the
slot template `"Hi $name! "` produce the three interpolated strings
concatenated in input order. -/
theorem eachFn_concat_spec_witness :
    eachFn [[("name", .str "a")], [("name", .str "b")], [("name", .str "c")]]
        "Hi $name! " = .ok "Hi a! Hi b! Hi c! " := by
  rw [eachFn_concat_spec _ _ (by decide)]
  rfl

theorem strMk_data (s : String) : String.mk s.data = s := by
  cases s; rfl

theorem gsubAux_text (post : List (String × LuaValue)) (l : List Char) :
    ∀ a : List Char, '$' ∉ a →
      gsubAux post (a ++ l) none = (a ++ ·) <$> gsubAux post l none := by
  intro a
  induction a with
  | nil =>
      intro _
      rcases h : gsubAux post l none with e | s <;> simp [h, Except.map]
  | cons c a ih =>
      intro ha
      have hc : (c == '$') = false := by
        simp only [List.mem_cons] at ha
        simpa using fun h => ha (Or.inl h.symm)
      have ha' : '$' ∉ a := fun h => ha (List.mem_cons_of_mem _ h)
      simp only [List.cons_append, gsubAux, hc, if_false, Bool.false_eq_true,
        List.append_eq]
      rw [ih ha']
      rcases h : gsubAux post l none with e | s <;> rfl

theorem gsubAux_name (post : List (String × LuaValue)) (l : List Char) :
    ∀ name acc : List Char, (∀ c ∈ name, isNameChar c) →
      gsubAux post (name ++ l) (some acc) =
        gsubAux post l (some (acc ++ name)) := by
  intro name
  induction name with
  | nil => intro acc _; simp
  | cons n name ih =>
      intro acc hname
      have hn : isNameChar n = true := hname n (by simp)
      simp only [List.cons_append, gsubAux, hn, if_true, List.append_eq]
      rw [ih (acc ++ [n]) (fun c hc => hname c (List.mem_cons_of_mem _ hc))]
      simp [List.append_assoc]

theorem gsubAux_tok_kept (post : List (String × LuaValue)) (l : List Char)
    (acc : List Char) (hacc : acc ≠ [])
    (hmiss : luaField post (String.mk acc) = none)
    (hl : l = [] ∨ ∃ c rest, l = c :: rest ∧ isNameChar c = false) :
    gsubAux post l (some acc) = (('$' :: acc) ++ ·) <$> gsubAux post l none := by
  have htok : tokOut post acc = .ok ('$' :: acc) := by
    simp [tokOut, hacc, hmiss]
  rcases hl with rfl | ⟨c, rest, rfl, hc⟩
  · simp [gsubAux, htok, Except.map]
  · simp only [gsubAux, hc, if_false, Bool.false_eq_true, htok]
    by_cases hd : c == '$'
    · simp only [hd, if_true]
      rcases h : gsubAux post rest (some []) with e | s <;> rfl
    · simp only [hd, if_false, Bool.false_eq_true]
      rcases h : gsubAux post rest none with e | s <;> rfl

/-- Whether a string is empty or starts with a character outside
`[a-zA-Z_]`, so that a token name just before it cannot extend into it. -/
def headNotName (b : String) : Bool :=
  match b.data with
  | [] => true
  | c :: _ => !isNameChar c

/-- C10: a token `$name` whose name has no field in the replacement element
is left verbatim in that element's copy of the sub-template (pass-through),
rather than being replaced by the empty string; the rest of the
sub-template is processed as usual. -/
theorem gsub_missing_field_passthrough (a name b : String)
    (post : List (String × LuaValue)) (ha : '$' ∉ a.data)
    (hne : name.data ≠ []) (hname : ∀ c ∈ name.data, isNameChar c)
    (hmiss : luaField post name = none) (hb : headNotName b) :
    gsubStr (a ++ "$" ++ name ++ b) post =
      (fun s => a ++ "$" ++ name ++ s) <$> gsubStr b post := by
  have hdata : (a ++ "$" ++ name ++ b).data
      = a.data ++ ('$' :: (name.data ++ b.data)) := by
    simp [String.data_append]
  have hb' : b.data = [] ∨
      ∃ c rest, b.data = c :: rest ∧ isNameChar c = false := by
    unfold headNotName at hb
    rcases h : b.data with _ | ⟨c, rest⟩
    · exact Or.inl rfl
    · rw [h] at hb; right; exact ⟨c, rest, rfl, by simpa using hb⟩
  unfold gsubStr
  rw [hdata, gsubAux_text post ('$' :: (name.data ++ b.data)) a.data ha]
  have hdollar : gsubAux post ('$' :: (name.data ++ b.data)) none
      = gsubAux post (name.data ++ b.data) (some []) := by
    simp [gsubAux]
  rw [hdollar, gsubAux_name post b.data name.data [] hname]
  rw [List.nil_append]
  rw [gsubAux_tok_kept post b.data name.data hne (by rwa [strMk_data]) hb']
  rcases h : gsubAux post b.data none with e | s <;>
    simp [Except.map, String.ext_iff, String.data_append]

/-- Witness for C10: the element `[("other", "x")]` has no field `name`, so
`$name` passes through verbatim. -/
theorem gsub_missing_field_passthrough_witness :
    gsubStr "Hi $name!" [("other", LuaValue.str "x")] = .ok "Hi $name!" := by
  have hsplit : "Hi $name!" = "Hi " ++ "$" ++ "name" ++ "!" := by decide
  rw [hsplit, gsub_missing_field_passthrough "Hi " "name" "!"
    [("other", LuaValue.str "x")] (by decide) (by decide) (by decide) rfl rfl]
  rfl

/-- The condition under which, per the spec, `show(v)` clears `data`:
`v` is falsy (nil/false) or the empty string. -/
def showClearsSpec : LuaValue → Bool
  | .nil => true
  | .boolean b => !b
  | .str s => s == ""
  | _ => false

/-- C5: `show(v)` clears `data` to the empty string exactly when `v` is
falsy (nil/false/absent) or the empty string, and leaves `data` unchanged
otherwise. -/
theorem showFn_spec (v : LuaValue) (data : String) :
    showFn v data = if showClearsSpec v then "" else data := by
  cases v with
  | boolean b => cases b <;> simp [showFn, showClearsSpec, luaOr, luaTruthy, luaEqEmpty]
  | _ => simp [showFn, showClearsSpec, luaOr, luaTruthy, luaEqEmpty]

/-- C6: `hide(v)` is the exact logical inverse of `show(v)`: it clears
`data` exactly in the cases where `show(v)` leaves `data` unchanged
(compare `showFn_spec`), and leaves `data` unchanged exactly where
`show(v)` clears it. -/
theorem hideFn_spec (v : LuaValue) (data : String) :
    hideFn v data = if showClearsSpec v then data else "" := by
  cases v with
  | boolean b => cases b <;> simp [hideFn, showClearsSpec, luaOr, luaTruthy, luaEqEmpty]
  | _ => simp [hideFn, showClearsSpec, luaOr, luaTruthy, luaEqEmpty]

/-- The per-render Lua interpreter state visible to slot scripts: the
`data` global plus the other named globals.  Prelude function registration
(src/src/lib.rs lines 80-82) is modelled by the Lean prelude functions
above; an arbitrary slot script is a parameter `exec` acting on this
state. -/
structure LuaState where
  data : String
  globals : String → Option LuaValue

/-- The shared engine state (`struct Environment`, lines 44-47): the value
store plus the prelude sources.  The value store is modelled as an
association list with the `HashMap` operations' semantics; stored values
are modelled already marshalled into the scripting value domain (the value
marshaller maps scalars directly, spec §4.4). -/
structure Environment where
  values : List (String × LuaValue)
  functions : List String

/-- `Environment::default` (lines 49-62): empty store, the five prelude
function sources. -/
def Environment.defaultEnv : Environment :=
  { values := []
    functions := [
      "function show(v) if (v or '') == '' then data = '' end end",
      "function hide(v) if (v or '') ~= '' then data = '' end end",
      "function maybe(v, o) return v or o end",
      "function format(...) data = string.format(data, ...) end",
      "function each(k) local template = data; data = ''; for _, post in ipairs(k) do data = data .. template:gsub('%$([a-zA-Z_]+)', post) end end"] }

/-- `struct Lawl` (lines 7-9) and its `Default` (lines 36-42). -/
structure Lawl where
  environment : Environment

def Lawl.defaultLawl : Lawl :=
  { environment := Environment.defaultEnv }

/-- `HashMap::insert`: bind the key, replacing any previous binding. -/
def storeInsert (l : List (String × LuaValue)) (k : String) (v : LuaValue) :
    List (String × LuaValue) :=
  l.filter (fun kv => kv.1 != k) ++ [(k, v)]

/-- `HashMap::remove`: drop the binding of the key, if any. -/
def storeRemove (l : List (String × LuaValue)) (k : String) :
    List (String × LuaValue) :=
  l.filter (fun kv => kv.1 != k)

/-- `Lawl::insert` (lines 19-28): stores the value under the key and always
returns `Ok(())`. -/
def Lawl.insert (self : Lawl) (key : String) (value : LuaValue) :
    Lawl × Except Unit Unit :=
  ({ environment := { self.environment with
       values := storeInsert self.environment.values key value } },
   .ok ())

/-- `Lawl::remove` (lines 30-33): deletes the entry if present and always
returns `Ok(())`. -/
def Lawl.remove (self : Lawl) (key : String) : Lawl × Except Unit Unit :=
  ({ environment := { self.environment with
       values := storeRemove self.environment.values key } },
   .ok ())

/-- The Script Context Builder (`impl Render for String`, lines 68-89): a
fresh interpreter per render call, the prelude loaded, every value-store
entry bound as a global named by its key.  The `data` global starts unset
(Lua `nil`), modelled by the empty string; every slot execution overwrites
it before any read. -/
def mkLuaState (environment : Environment) : LuaState :=
  { data := ""
    globals := fun k => List.lookup k environment.values }

/-- Whitespace, as in the HTML tag grammar. -/
def isWs (c : Char) : Bool :=
  c == ' ' || c == '\t' || c == '\n' || c == '\r' || c == '\x0c'

/-- Case-insensitive match of the (lowercase) pattern against the start of
the input; the reserved element name is matched case-insensitively. -/
def caseLead : List Char → List Char → Bool
  | [], _ => true
  | _ :: _, [] => false
  | p :: ps, c :: cs => (c.toLower == p) && caseLead ps cs

/-- Does the input begin with an open tag of the reserved element
(`<lua` followed by whitespace, `>`, or `/`)? -/
def luaOpenHead : List Char → Bool
  | c :: rest =>
      c == '<' && caseLead ['l', 'u', 'a'] rest &&
        (match rest.drop 3 with
         | d :: _ => isWs d || d == '>' || d == '/'
         | [] => false)
  | [] => false

/-- Does the input begin with a close tag of the reserved element
(`</lua` followed by whitespace or `>`)? -/
def luaCloseHead : List Char → Bool
  | a :: b :: rest =>
      a == '<' && b == '/' && caseLead ['l', 'u', 'a'] rest &&
        (match rest.drop 3 with
         | d :: _ => isWs d || d == '>'
         | [] => false)
  | _ => false

/-- Characters allowed in an attribute name by the HTML tokenizer. -/
def isAttrNameChar (c : Char) : Bool :=
  !(isWs c || c == '=' || c == '/' || c == '\'' || c == '"' || c == '>')

def lowerStr (s : List Char) : String :=
  String.mk (s.map Char.toLower)

/-- Attribute parsing inside a tag, as the HTML tokenizer does it: names
compare case-insensitively, values may be single-quoted, double-quoted or
unquoted, a name alone has the empty value.  The fuel only bounds the
recursion and is always sufficient, since each step consumes at least one
character. -/
def parseAttrs : Nat → List Char → List (String × String)
  | 0, _ => []
  | _ + 1, [] => []
  | fuel + 1, c :: rest =>
      if isWs c || c == '/' then parseAttrs fuel rest
      else
        let name := (c :: rest).takeWhile isAttrNameChar
        if name.isEmpty then parseAttrs fuel rest
        else
          match ((c :: rest).drop name.length).dropWhile isWs with
          | '=' :: v =>
              (match v.dropWhile isWs with
               | q :: vr =>
                   if q == '\'' || q == '"' then
                     let val := vr.takeWhile (fun d => d != q)
                     (lowerStr name, String.mk val) ::
                       parseAttrs fuel (vr.drop (val.length + 1))
                   else
                     let val := (q :: vr).takeWhile (fun d => !isWs d)
                     (lowerStr name, String.mk val) ::
                       parseAttrs fuel ((q :: vr).drop val.length)
               | [] => [(lowerStr name, "")])
          | after => (lowerStr name, "") :: parseAttrs fuel after

/-- `el.get_attribute("code").unwrap_or("".to_string())` (line 98): the
first attribute named `code` of the open tag, or the empty string. -/
def getCodeAttr (attrs : List Char) : String :=
  (List.lookup "code" (parseAttrs (attrs.length + 1) attrs)).getD ""

/-- One token of the streaming pass: a plain character, an open tag of the
reserved element (with its source span and `code` attribute), or a close
tag of the reserved element (with its start offset and source text). -/
inductive Tok where
  | text (c : Char)
  | openT (start stop : Nat) (code : String)
  | closeT (start : Nat) (raw : List Char)

/-- Scanner mode: at the top level, or inside a tag of the reserved element
started at offset `start` (`isClose` tells which kind), having consumed
`acc` after the `<`, with `q` the currently open quote if any. -/
inductive ScanMode where
  | top
  | tag (start : Nat) (isClose : Bool) (acc : List Char) (q : Option Char)

/-- The streaming pass of the HTML rewriter, restricted to what the
`element!("lua", ...)` handler observes: occurrences of the reserved
element are tokenized (quote-aware, case-insensitively), everything else
streams through as plain text.  `pos` is the offset in the source.  A tag
still open at the end of input is replayed as text. -/
def scanGo : List Char → Nat → ScanMode → List Tok
  | [], _, .top => []
  | [], _, .tag _ _ acc _ => ('<' :: acc).map Tok.text
  | c :: rest, pos, .top =>
      if luaOpenHead (c :: rest) then
        scanGo rest (pos + 1) (.tag pos false [] none)
      else if luaCloseHead (c :: rest) then
        scanGo rest (pos + 1) (.tag pos true [] none)
      else Tok.text c :: scanGo rest (pos + 1) .top
  | c :: rest, pos, .tag start isClose acc none =>
      if c == '>' then
        (if isClose then Tok.closeT start ('<' :: acc ++ ['>'])
         else Tok.openT start (pos + 1) (getCodeAttr (acc.drop 3))) ::
          scanGo rest (pos + 1) .top
      else if c == '\'' || c == '"' then
        scanGo rest (pos + 1) (.tag start isClose (acc ++ [c]) (some c))
      else scanGo rest (pos + 1) (.tag start isClose (acc ++ [c]) none)
  | c :: rest, pos, .tag start isClose acc (some q) =>
      if c == q then scanGo rest (pos + 1) (.tag start isClose (acc ++ [c]) none)
      else scanGo rest (pos + 1) (.tag start isClose (acc ++ [c]) (some q))

def tokenize (t : String) : List Tok :=
  scanGo t.data 0 .top

/-- State threaded through the rewriting pass.  The `env` field carries the
engine's `Environment`, borrowed for the duration of the render call (the
handlers never touch it); `lua` is the render's interpreter state, shared
by all handlers of the call; `out` is the output buffer; `stack` holds the
open occurrences of the reserved element ((content start offset, `code`
attribute), innermost first); `trace` records, in execution order, each
slot script together with the slot content bound to `data` for it. -/
structure RenderState where
  env : Environment
  lua : LuaState
  out : List Char
  stack : List (Nat × String)
  trace : List (String × String)

/-- `source[start_location..end_location]` (line 107): the slot content is
sliced out of the original template. -/
def sliceStr (s : String) (a b : Nat) : String :=
  String.mk ((s.data.drop a).take (b - a))

/-- The panic message of `.expect(format!("Invalid Lua expression. {}", e))`
(line 113): the surfaced fatal error carries the originating `code` text,
followed by the engine diagnostic. -/
def scriptErrMsg (code diag : String) : String :=
  "Invalid Lua expression. " ++ code ++ ": " ++ diag

/-- The element-content handler protocol (lines 96-123) over the token
stream.  An open tag is removed (`el.remove()`) and pushed with its content
start offset and `code` attribute; content inside a removed element does
not reach the output; at the matching close tag the slot content is sliced
from the original source, bound as the `data` global, and the `code` script
is executed — a failure aborts the render with the panic message — after
which the post-script `data` is spliced into the output in place of the
whole element; a close tag with no open element passes through unchanged. -/
def processToks (exec : String → LuaState → Except String LuaState)
    (src : String) : List Tok → RenderState → Except String RenderState
  | [], st => .ok st
  | .text c :: rest, st =>
      processToks exec src rest
        (if st.stack.isEmpty then { st with out := st.out ++ [c] } else st)
  | .openT _ stop code :: rest, st =>
      processToks exec src rest { st with stack := (stop, code) :: st.stack }
  | .closeT start raw :: rest, st =>
      match st.stack with
      | [] => processToks exec src rest { st with out := st.out ++ raw }
      | (cstart, code) :: stk =>
          let captured := sliceStr src cstart start
          match exec code { st.lua with data := captured } with
          | .error diag => .error (scriptErrMsg code diag)
          | .ok lua' =>
              processToks exec src rest
                { st with
                  lua := lua'
                  stack := stk
                  trace := st.trace ++ [(code, captured)]
                  out := if stk.isEmpty then st.out ++ lua'.data.data
                         else st.out }

def initState (environment : Environment) : RenderState :=
  { env := environment, lua := mkLuaState environment,
    out := [], stack := [], trace := [] }

/-- `fn render(template: &String, lua: Lua)` (lines 92-132), together with
the context building of `impl Render for String` (lines 68-89). -/
def renderCore (exec : String → LuaState → Except String LuaState)
    (environment : Environment) (template : String) :
    Except String RenderState :=
  processToks exec template (tokenize template) (initState environment)

/-- `Lawl::render` (lines 15-17): the rendered output string, or the fatal
script error (the `.expect` panic, modelled as the error branch). -/
def Lawl.render (exec : String → LuaState → Except String LuaState)
    (self : Lawl) (html : String) : Except String String :=
  (renderCore exec self.environment html).map (fun st => String.mk st.out)

/-- The slot-script executions of a successful render, in execution order:
each entry is a `code` script with the slot content bound to `data` for
it. -/
def renderTrace (exec : String → LuaState → Except String LuaState)
    (environment : Environment) (template : String) :
    List (String × String) :=
  match renderCore exec environment template with
  | .ok st => st.trace
  | .error _ => []

theorem luaOpenHead_neg {c : Char} {r : List Char} (hc : (c == '<') = false) :
    luaOpenHead (c :: r) = false := by
  simp [luaOpenHead, hc]

theorem luaCloseHead_neg {c : Char} {r : List Char} (hc : (c == '<') = false) :
    luaCloseHead (c :: r) = false := by
  cases r <;> simp [luaCloseHead, hc]

theorem scanGo_text (a : List Char) :
    ∀ (l : List Char) (pos : Nat), '<' ∉ a →
      scanGo (a ++ l) pos .top = a.map Tok.text ++ scanGo l (pos + a.length) .top := by
  induction a with
  | nil => intro l pos _; simp
  | cons c a ih =>
      intro l pos ha
      have hc : (c == '<') = false := by
        simp only [List.mem_cons] at ha
        simpa using fun h => ha (Or.inl h.symm)
      have ha' : '<' ∉ a := fun h => ha (List.mem_cons_of_mem _ h)
      simp only [List.cons_append, scanGo, luaOpenHead_neg hc, luaCloseHead_neg hc,
        if_false, Bool.false_eq_true, List.append_eq]
      rw [ih l (pos + 1) ha']
      rw [show pos + 1 + a.length = pos + (c :: a).length by
        simp [List.length_cons]; omega]
      simp

theorem scanGo_quote (q : Char) (cs : List Char) :
    ∀ (rest : List Char) (pos s : Nat) (ic : Bool) (acc : List Char),
      q ∉ cs →
      scanGo (cs ++ rest) pos (.tag s ic acc (some q)) =
        scanGo rest (pos + cs.length) (.tag s ic (acc ++ cs) (some q)) := by
  induction cs with
  | nil => intro rest pos s ic acc _; simp
  | cons c cs ih =>
      intro rest pos s ic acc hq
      have hc : (c == q) = false := by
        simp only [List.mem_cons] at hq
        simpa using fun h => hq (Or.inl h.symm)
      simp only [List.cons_append, scanGo, hc, if_false, Bool.false_eq_true,
        List.append_eq]
      rw [ih rest (pos + 1) s ic (acc ++ [c])
        (fun h => hq (List.mem_cons_of_mem _ h))]
      rw [show pos + 1 + cs.length = pos + (c :: cs).length by
        simp [List.length_cons]; omega]
      simp [List.append_assoc]

theorem parseAttrs_nil (f : Nat) : parseAttrs f [] = [] := by
  cases f <;> rfl

theorem takeWhile_until {q : Char} :
    ∀ cs : List Char, q ∉ cs →
      (cs ++ [q]).takeWhile (fun d => d != q) = cs := by
  intro cs
  induction cs with
  | nil => intro _; simp [List.takeWhile]
  | cons c cs ih =>
      intro h
      have hc : (c != q) = true := by
        simp only [List.mem_cons] at h
        simpa using fun hcq => h (Or.inl hcq.symm)
      simp only [List.cons_append, List.takeWhile_cons, hc, if_true]
      rw [ih (fun hm => h (List.mem_cons_of_mem _ hm))]

theorem parseAttrs_code (code : List Char) (hq : '\'' ∉ code) (f : Nat) :
    parseAttrs (f + 2)
        (' ' :: 'c' :: 'o' :: 'd' :: 'e' :: '=' :: '\'' :: (code ++ ['\''])) =
      [("code", String.mk code)] := by
  have hval : (code ++ ['\'']).takeWhile (fun d => d != '\'') = code :=
    takeWhile_until code hq
  have hdrop : (code ++ ['\'']).drop (code.length + 1) = [] := by
    have hlen : (code ++ ['\'']).length = code.length + 1 := by simp
    rw [← hlen, List.drop_length]
  simp +decide [parseAttrs, List.takeWhile_cons, hval, hdrop, parseAttrs_nil,
    lowerStr]


theorem getCodeAttr_single (code : List Char) (hq : '\'' ∉ code) :
    getCodeAttr
        (' ' :: 'c' :: 'o' :: 'd' :: 'e' :: '=' :: '\'' :: (code ++ ['\''])) =
      String.mk code := by
  unfold getCodeAttr
  rw [show (' ' :: 'c' :: 'o' :: 'd' :: 'e' :: '=' :: '\'' ::
      (code ++ ['\''])).length + 1 = (code.length + 7) + 2 by simp]
  rw [parseAttrs_code code hq (code.length + 7)]
  rfl

theorem scanGo_openTag (code : List Char) (hq : '\'' ∉ code)
    (rest : List Char) (pos : Nat) :
    scanGo ('<' :: 'l' :: 'u' :: 'a' :: ' ' :: 'c' :: 'o' :: 'd' :: 'e' ::
        '=' :: '\'' :: (code ++ ('\'' :: '>' :: rest))) pos .top =
      Tok.openT pos (pos + (13 + code.length)) (String.mk code) ::
        scanGo rest (pos + (13 + code.length)) .top := by
  rw [show scanGo ('<' :: 'l' :: 'u' :: 'a' :: ' ' :: 'c' :: 'o' :: 'd' ::
        'e' :: '=' :: '\'' :: (code ++ ('\'' :: '>' :: rest))) pos .top =
      scanGo (code ++ ('\'' :: '>' :: rest)) (pos + 11)
        (.tag pos false
          ('l' :: 'u' :: 'a' :: ' ' :: 'c' :: 'o' :: 'd' :: 'e' :: '=' ::
            ['\''])
          (some '\'')) from rfl]
  rw [scanGo_quote '\'' code ('\'' :: '>' :: rest) (pos + 11) pos false
    ('l' :: 'u' :: 'a' :: ' ' :: 'c' :: 'o' :: 'd' :: 'e' :: '=' :: ['\''])
    hq]
  rw [show scanGo ('\'' :: '>' :: rest) (pos + 11 + code.length)
        (.tag pos false
          (('l' :: 'u' :: 'a' :: ' ' :: 'c' :: 'o' :: 'd' :: 'e' :: '=' ::
            ['\'']) ++ code)
          (some '\'')) =
      Tok.openT pos (pos + 11 + code.length + 2)
          (getCodeAttr
            (((('l' :: 'u' :: 'a' :: ' ' :: 'c' :: 'o' :: 'd' :: 'e' :: '=' ::
              ['\'']) ++ code) ++ ['\'']).drop 3)) ::
        scanGo rest (pos + 11 + code.length + 2) .top from rfl]
  rw [show ((('l' :: 'u' :: 'a' :: ' ' :: 'c' :: 'o' :: 'd' :: 'e' :: '=' ::
      ['\'']) ++ code) ++ ['\'']).drop 3 =
      ' ' :: 'c' :: 'o' :: 'd' :: 'e' :: '=' :: '\'' :: (code ++ ['\'']) by
    simp]
  rw [getCodeAttr_single code hq]
  rw [show pos + 11 + code.length + 2 = pos + (13 + code.length) by omega]

theorem scanGo_closeTag (rest : List Char) (pos : Nat) :
    scanGo ('<' :: '/' :: 'l' :: 'u' :: 'a' :: '>' :: rest) pos .top =
      Tok.closeT pos ('<' :: '/' :: 'l' :: 'u' :: 'a' :: ['>']) ::
        scanGo rest (pos + 6) .top := rfl

theorem processToks_text (exec : String → LuaState → Except String LuaState)
    (src : String) (cs : List Char) :
    ∀ (ts : List Tok) (st : RenderState), st.stack = [] →
      processToks exec src (cs.map Tok.text ++ ts) st =
        processToks exec src ts { st with out := st.out ++ cs } := by
  induction cs with
  | nil => intro ts st _; simp
  | cons c cs ih =>
      intro ts st hst
      have he : st.stack.isEmpty = true := by simp [hst]
      simp only [List.map_cons, List.cons_append, processToks, he, if_true,
        List.append_eq]
      rw [ih ts { st with out := st.out ++ [c] } hst]
      simp [List.append_assoc]

theorem processToks_text_in (exec : String → LuaState → Except String LuaState)
    (src : String) (cs : List Char) :
    ∀ (ts : List Tok) (st : RenderState), st.stack ≠ [] →
      processToks exec src (cs.map Tok.text ++ ts) st =
        processToks exec src ts st := by
  induction cs with
  | nil => intro ts st _; simp
  | cons c cs ih =>
      intro ts st hst
      have hne : st.stack.isEmpty = false := by
        simpa [List.isEmpty_iff] using hst
      simp only [List.map_cons, List.cons_append, processToks, hne,
        Bool.false_eq_true, if_false, List.append_eq]
      exact ih ts st hst

theorem scanGo_text_all (a : List Char) (pos : Nat) (h : '<' ∉ a) :
    scanGo a pos .top = a.map Tok.text := by
  have hs := scanGo_text a [] pos h
  simpa [scanGo] using hs

theorem tokenize_single (pre code content post : String)
    (hpre : '<' ∉ pre.data) (hq : '\'' ∉ code.data)
    (hcontent : '<' ∉ content.data) (hpost : '<' ∉ post.data) :
    tokenize (pre ++ "<lua code='" ++ code ++ "'>" ++ content ++ "</lua>"
        ++ post) =
      pre.data.map Tok.text ++
        (Tok.openT pre.data.length
            (pre.data.length + (13 + code.data.length)) code ::
          (content.data.map Tok.text ++
            (Tok.closeT (pre.data.length + (13 + code.data.length)
                + content.data.length)
              ('<' :: '/' :: 'l' :: 'u' :: 'a' :: ['>']) ::
            post.data.map Tok.text))) := by
  unfold tokenize
  have h1 : ("<lua code='" : String).data =
      '<' :: 'l' :: 'u' :: 'a' :: ' ' :: 'c' :: 'o' :: 'd' :: 'e' :: '=' ::
        ['\''] := rfl
  have h2 : ("'>" : String).data = '\'' :: ['>'] := rfl
  have h3 : ("</lua>" : String).data =
      '<' :: '/' :: 'l' :: 'u' :: 'a' :: ['>'] := rfl
  have hdata : (pre ++ "<lua code='" ++ code ++ "'>" ++ content ++ "</lua>"
      ++ post).data =
      pre.data ++ ('<' :: 'l' :: 'u' :: 'a' :: ' ' :: 'c' :: 'o' :: 'd' ::
        'e' :: '=' :: '\'' ::
        (code.data ++ ('\'' :: '>' ::
          (content.data ++ ('<' :: '/' :: 'l' :: 'u' :: 'a' :: '>' ::
            post.data))))) := by
    simp [String.data_append, h1, h2, h3]
  rw [hdata]
  rw [scanGo_text pre.data _ 0 hpre]
  rw [Nat.zero_add]
  rw [scanGo_openTag code.data hq _ pre.data.length]
  rw [scanGo_text content.data _ _ hcontent]
  rw [scanGo_closeTag post.data _]
  rw [scanGo_text_all post.data _ hpost]

theorem processToks_text_all
    (exec : String → LuaState → Except String LuaState) (src : String)
    (cs : List Char) (st : RenderState) (h : st.stack = []) :
    processToks exec src (cs.map Tok.text) st =
      .ok { st with out := st.out ++ cs } := by
  have hp := processToks_text exec src cs [] st h
  simpa [processToks] using hp

theorem sliceStr_of_decomp (t : String) (A mid B : List Char)
    (ht : t.data = A ++ (mid ++ B)) :
    sliceStr t A.length (A.length + mid.length) = String.mk mid := by
  unfold sliceStr
  rw [ht, List.drop_left]
  rw [show A.length + mid.length - A.length = mid.length by omega]
  rw [List.take_left]

theorem renderCore_single (exec : String → LuaState → Except String LuaState)
    (env : Environment) (pre code content post : String)
    (hpre : '<' ∉ pre.data) (hq : '\'' ∉ code.data)
    (hcontent : '<' ∉ content.data) (hpost : '<' ∉ post.data) :
    renderCore exec env
        (pre ++ "<lua code='" ++ code ++ "'>" ++ content ++ "</lua>" ++ post) =
      match exec code { mkLuaState env with data := content } with
      | .error diag => .error (scriptErrMsg code diag)
      | .ok lua' =>
          .ok { env := env, lua := lua',
                out := pre.data ++ lua'.data.data ++ post.data,
                stack := [], trace := [(code, content)] } := by
  have h1 : ("<lua code='" : String).data =
      '<' :: 'l' :: 'u' :: 'a' :: ' ' :: 'c' :: 'o' :: 'd' :: 'e' :: '=' ::
        ['\''] := rfl
  have h2 : ("'>" : String).data = '\'' :: ['>'] := rfl
  have h3 : ("</lua>" : String).data =
      '<' :: '/' :: 'l' :: 'u' :: 'a' :: ['>'] := rfl
  have hdecomp : (pre ++ "<lua code='" ++ code ++ "'>" ++ content ++ "</lua>"
      ++ post).data =
      (pre.data ++ ('<' :: 'l' :: 'u' :: 'a' :: ' ' :: 'c' :: 'o' :: 'd' ::
        'e' :: '=' :: '\'' :: (code.data ++ '\'' :: ['>']))) ++
        (content.data ++
          ('<' :: '/' :: 'l' :: 'u' :: 'a' :: '>' :: post.data)) := by
    simp [String.data_append, h1, h2, h3]
  have hslice : sliceStr (pre ++ "<lua code='" ++ code ++ "'>" ++ content
      ++ "</lua>" ++ post)
      (pre.data.length + (13 + code.data.length))
      (pre.data.length + (13 + code.data.length) + content.data.length)
      = content := by
    have hAlen : (pre.data ++ ('<' :: 'l' :: 'u' :: 'a' :: ' ' :: 'c' :: 'o'
        :: 'd' :: 'e' :: '=' :: '\'' :: (code.data ++ '\'' :: ['>']))).length
        = pre.data.length + (13 + code.data.length) := by
      simp
      omega
    have hs := sliceStr_of_decomp _ _ content.data _ hdecomp
    rw [hAlen] at hs
    rw [hs, strMk_data]
  unfold renderCore
  rw [tokenize_single pre code content post hpre hq hcontent hpost]
  rw [processToks_text exec _ pre.data _ (initState env) rfl]
  simp only [processToks, initState]
  rw [processToks_text_in exec _ content.data _ _ (by simp)]
  simp only [processToks, hslice]
  rcases hexec : exec code { mkLuaState env with data := content }
      with diag | lua'
  · rfl
  · dsimp only
    rw [processToks_text_all exec _ post.data _ rfl]
    simp [List.append_assoc]

/-- C2: the whole open-tag, content, close-tag span of an occurrence of the
reserved element is replaced, in the output, by exactly the string value of
the `data` global after the tag's `code` script has run (with `data`
initially bound to the slot's literal content), and nothing else in the
document is touched.  `exec` is the Lua engine's action for `code`, and the
hypotheses keep the surrounding text free of further reserved-tag starts
and the `code` attribute within its single-quoted form. -/
theorem render_single_slot (exec : String → LuaState → Except String LuaState)
    (lawl : Lawl) (pre code content post : String) (lua' : LuaState)
    (hpre : '<' ∉ pre.data) (hq : '\'' ∉ code.data)
    (hcontent : '<' ∉ content.data) (hpost : '<' ∉ post.data)
    (hexec : exec code { mkLuaState lawl.environment with data := content }
      = .ok lua') :
    Lawl.render exec lawl
        (pre ++ "<lua code='" ++ code ++ "'>" ++ content ++ "</lua>" ++ post)
      = .ok (pre ++ lua'.data ++ post) := by
  unfold Lawl.render
  rw [renderCore_single exec lawl.environment pre code content post hpre hq
    hcontent hpost]
  rw [hexec]
  simp [Except.map, String.ext_iff, String.data_append]

/-- The Lua engine's action for the script `data = "my little pony"`:
assign that literal to the `data` global. -/
def ponyExec : String → LuaState → Except String LuaState :=
  fun _ st => .ok { st with data := "my little pony" }

/-- Witness for C2, the spec's own example: the slot content is ignored and
the render yields exactly the post-script value of `data`. -/
theorem render_single_slot_witness :
    Lawl.render ponyExec Lawl.defaultLawl
        "<lua code='data = \"my little pony\"'>replace me!</lua>"
      = .ok "my little pony" := by
  have hsplit :
      ("<lua code='data = \"my little pony\"'>replace me!</lua>" : String)
        = "" ++ "<lua code='" ++ "data = \"my little pony\"" ++ "'>"
            ++ "replace me!" ++ "</lua>" ++ "" := by decide
  rw [hsplit, render_single_slot ponyExec Lawl.defaultLawl ""
    "data = \"my little pony\"" "replace me!" "" _
    (by decide) (by decide) (by decide) (by decide) rfl]
  rfl

/-- C1: if the slot's `code` script fails (parse failure or runtime error,
both surfacing as an error of `lua.load(&e).exec()`), the render aborts
with a fatal error whose message embeds the originating `code` text, and no
output string is produced for the call (the code panics via `.expect`; the
panic is the fatal outcome modelled by the error branch). -/
theorem render_script_error (exec : String → LuaState → Except String LuaState)
    (lawl : Lawl) (pre code content post diag : String)
    (hpre : '<' ∉ pre.data) (hq : '\'' ∉ code.data)
    (hcontent : '<' ∉ content.data) (hpost : '<' ∉ post.data)
    (hexec : exec code { mkLuaState lawl.environment with data := content }
      = .error diag) :
    Lawl.render exec lawl
        (pre ++ "<lua code='" ++ code ++ "'>" ++ content ++ "</lua>" ++ post)
      = .error (scriptErrMsg code diag) ∧
      ∃ a b : String, scriptErrMsg code diag = a ++ code ++ b := by
  constructor
  · unfold Lawl.render
    rw [renderCore_single exec lawl.environment pre code content post hpre hq
      hcontent hpost]
    rw [hexec]
    rfl
  · exact ⟨"Invalid Lua expression. ", ": " ++ diag, by
      simp [scriptErrMsg, String.append_assoc]⟩

/-- A Lua engine action that fails on every script, with a fixed
diagnostic. -/
def failExec : String → LuaState → Except String LuaState :=
  fun _ _ => .error "attempt to call a nil value"

/-- Witness for C1: a failing script aborts the render with the fatal error
carrying the `code` text; no output is produced. -/
theorem render_script_error_witness :
    Lawl.render failExec Lawl.defaultLawl
        ("pre" ++ "<lua code='" ++ "bad(" ++ "'>" ++ "x" ++ "</lua>"
          ++ "post")
      = .error (scriptErrMsg "bad(" "attempt to call a nil value") ∧
      ∃ a b : String,
        scriptErrMsg "bad(" "attempt to call a nil value"
          = a ++ "bad(" ++ b :=
  render_script_error failExec Lawl.defaultLawl "pre" "bad(" "x" "post"
    "attempt to call a nil value"
    (by decide) (by decide) (by decide) (by decide) rfl

/-- No open or close tag of the reserved element starts at any position. -/
def noLuaTag : List Char → Bool
  | [] => true
  | c :: rest =>
      !luaOpenHead (c :: rest) && !luaCloseHead (c :: rest) && noLuaTag rest

theorem scanGo_noLua :
    ∀ (l : List Char) (pos : Nat), noLuaTag l = true →
      scanGo l pos .top = l.map Tok.text := by
  intro l
  induction l with
  | nil => intro pos _; rfl
  | cons c rest ih =>
      intro pos h
      simp only [noLuaTag, Bool.and_eq_true, Bool.not_eq_true'] at h
      obtain ⟨⟨ho, hc⟩, hrest⟩ := h
      simp only [scanGo, ho, hc, if_false, Bool.false_eq_true, List.map_cons]
      rw [ih (pos + 1) hrest]

/-- C3: a template with no occurrence of the reserved tag renders to
itself, byte for byte: every byte outside an occurrence of the reserved
tag passes through unchanged, and here there are none. -/
theorem render_no_tag_identity
    (exec : String → LuaState → Except String LuaState) (lawl : Lawl)
    (t : String) (h : noLuaTag t.data = true) :
    Lawl.render exec lawl t = .ok t := by
  unfold Lawl.render renderCore tokenize
  rw [scanGo_noLua t.data 0 h]
  rw [processToks_text_all exec t t.data (initState lawl.environment) rfl]
  simp [Except.map, initState, strMk_data]

/-- A Lua engine action that leaves the interpreter state unchanged. -/
def idExec : String → LuaState → Except String LuaState :=
  fun _ st => .ok st

/-- Witness for C3: a lua-free document is returned unchanged. -/
theorem render_no_tag_identity_witness :
    Lawl.render idExec Lawl.defaultLawl "<html><body>hi</body></html>"
      = .ok "<html><body>hi</body></html>" :=
  render_no_tag_identity idExec Lawl.defaultLawl
    "<html><body>hi</body></html>" (by decide)

theorem lookup_storeInsert (l : List (String × LuaValue)) (k : String)
    (v : LuaValue) : List.lookup k (storeInsert l k v) = some v := by
  unfold storeInsert
  induction l with
  | nil => simp [List.lookup]
  | cons kv rest ih =>
      rcases kv with ⟨a, b⟩
      by_cases h : a = k
      · subst h
        simpa [List.filter] using ih
      · have hne : (a != k) = true := by simpa using h
        have hne' : (k == a) = false := by
          simpa using fun hk => h hk.symm
        simpa [List.filter, hne, List.lookup, hne'] using ih

theorem lookup_storeRemove (l : List (String × LuaValue)) (k : String) :
    List.lookup k (storeRemove l k) = none := by
  unfold storeRemove
  induction l with
  | nil => simp [List.lookup]
  | cons kv rest ih =>
      rcases kv with ⟨a, b⟩
      by_cases h : a = k
      · subst h
        simpa [List.filter] using ih
      · have hne : (a != k) = true := by simpa using h
        have hne' : (k == a) = false := by
          simpa using fun hk => h hk.symm
        simpa [List.filter, hne, List.lookup, hne'] using ih

theorem storeRemove_absent (l : List (String × LuaValue)) (k : String)
    (h : List.lookup k l = none) : storeRemove l k = l := by
  unfold storeRemove
  induction l with
  | nil => rfl
  | cons kv rest ih =>
      rcases kv with ⟨a, b⟩
      simp only [List.lookup] at h
      rcases hk : (k == a) with _ | _
      · rw [hk] at h
        have hne : (a != k) = true := by
          simp only [bne_iff_ne]
          intro hak
          rw [hak] at hk
          simp at hk
        simp [List.filter, hne, ih h]
      · rw [hk] at h
        cases h

/-- C8: `insert` and `remove` on the value store never fail; after
`insert(k, v1)` then `insert(k, v2)` a render's script context binds the
global `k` to `v2` (last insert wins); after a further `remove(k)` the
global `k` is unbound in renders; and removing an absent key is a no-op. -/
theorem insert_remove_spec (lawl : Lawl) (k : String) (v1 v2 : LuaValue) :
    ((lawl.insert k v1).2 = .ok ()) ∧
    ((lawl.remove k).2 = .ok ()) ∧
    ((mkLuaState ((lawl.insert k v1).1.insert k v2).1.environment).globals k
      = some v2) ∧
    ((mkLuaState
        ((((lawl.insert k v1).1.insert k v2).1.remove k).1.environment)).globals
      k = none) ∧
    (List.lookup k lawl.environment.values = none →
      (lawl.remove k).1 = lawl) := by
  refine ⟨rfl, rfl, ?_, ?_, ?_⟩
  · simp [Lawl.insert, mkLuaState, lookup_storeInsert]
  · simp [Lawl.insert, Lawl.remove, mkLuaState, lookup_storeRemove]
  · intro h
    simp [Lawl.remove, storeRemove_absent _ _ h]

/-- Witness for C8 on the spec's example: key `x`, values `1` then `2`. -/
theorem insert_remove_spec_witness :
    ((Lawl.defaultLawl.insert "x" (.num 1)).2 = .ok ()) ∧
    ((Lawl.defaultLawl.remove "x").2 = .ok ()) ∧
    ((mkLuaState
        ((Lawl.defaultLawl.insert "x" (.num 1)).1.insert "x"
          (.num 2)).1.environment).globals "x" = some (.num 2)) ∧
    ((mkLuaState
        ((((Lawl.defaultLawl.insert "x" (.num 1)).1.insert "x"
          (.num 2)).1.remove "x").1.environment)).globals "x" = none) ∧
    ((Lawl.defaultLawl.remove "x").1 = Lawl.defaultLawl) := by
  have h := insert_remove_spec Lawl.defaultLawl "x" (.num 1) (.num 2)
  exact ⟨h.1, h.2.1, h.2.2.1, h.2.2.2.1, h.2.2.2.2 rfl⟩

theorem processToks_env (exec : String → LuaState → Except String LuaState)
    (src : String) :
    ∀ (toks : List Tok) (st st' : RenderState),
      processToks exec src toks st = .ok st' → st'.env = st.env := by
  intro toks
  induction toks with
  | nil =>
      intro st st' h
      simp only [processToks] at h
      cases h
      rfl
  | cons t rest ih =>
      intro st st' h
      cases t with
      | text c =>
          simp only [processToks] at h
          have henv : (if st.stack.isEmpty = true
              then { st with out := st.out ++ [c] } else st).env = st.env := by
            split <;> rfl
          exact (ih _ st' h).trans henv
      | openT s e code =>
          simp only [processToks] at h
          have hh := ih _ st' h
          exact hh
      | closeT s raw =>
          simp only [processToks] at h
          rcases hst : st.stack with _ | ⟨⟨cs, code⟩, stk⟩
          · rw [hst] at h
            dsimp only at h
            have hh := ih _ st' h
            exact hh
          · rw [hst] at h
            dsimp only at h
            rcases hex : exec code { st.lua with data := sliceStr src cs s }
              with d | lua'
            · rw [hex] at h
              cases h
            · rw [hex] at h
              dsimp only at h
              have hh := ih _ st' h
              exact hh

/-- C9: a render call leaves the `Environment` unchanged — same key set,
same stored values, same prelude sources — whatever the slot scripts do:
the theorem quantifies over every possible script behavior `exec`, which
acts only on the interpreter state, never on the `Environment` carried
through the render. -/
theorem render_env_frame (exec : String → LuaState → Except String LuaState)
    (lawl : Lawl) (t : String) (st' : RenderState)
    (h : renderCore exec lawl.environment t = .ok st') :
    st'.env = lawl.environment := by
  unfold renderCore at h
  exact processToks_env exec t (tokenize t) (initState lawl.environment) st' h

/-- Witness for C9: rendering the template `"A"` ends in a state whose
environment is the one the render started from. -/
theorem render_env_frame_witness :
    (RenderState.mk Environment.defaultEnv (mkLuaState Environment.defaultEnv)
        ['A'] [] []).env = Lawl.defaultLawl.environment :=
  render_env_frame idExec Lawl.defaultLawl "A"
    (RenderState.mk Environment.defaultEnv (mkLuaState Environment.defaultEnv)
      ['A'] [] []) rfl

theorem sliceStr_of_decomp' (t : String) (A mid B : List Char) (a b : Nat)
    (ht : t.data = A ++ (mid ++ B)) (ha : a = A.length)
    (hb : b = A.length + mid.length) :
    sliceStr t a b = String.mk mid := by
  subst ha
  subst hb
  exact sliceStr_of_decomp t A mid B ht

theorem tokenize_nested (pre c1 mid1 c2 mid2 mid3 post : String)
    (hpre : '<' ∉ pre.data) (hc1 : '\'' ∉ c1.data) (hmid1 : '<' ∉ mid1.data)
    (hc2 : '\'' ∉ c2.data) (hmid2 : '<' ∉ mid2.data)
    (hmid3 : '<' ∉ mid3.data) (hpost : '<' ∉ post.data) :
    tokenize (pre ++ "<lua code='" ++ c1 ++ "'>" ++ mid1 ++ "<lua code='"
        ++ c2 ++ "'>" ++ mid2 ++ "</lua>" ++ mid3 ++ "</lua>" ++ post) =
      pre.data.map Tok.text ++
        (Tok.openT pre.data.length
            (pre.data.length + (13 + c1.data.length)) c1 ::
          (mid1.data.map Tok.text ++
            (Tok.openT (pre.data.length + (13 + c1.data.length)
                  + mid1.data.length)
                (pre.data.length + (13 + c1.data.length) + mid1.data.length
                  + (13 + c2.data.length)) c2 ::
              (mid2.data.map Tok.text ++
                (Tok.closeT (pre.data.length + (13 + c1.data.length)
                      + mid1.data.length + (13 + c2.data.length)
                      + mid2.data.length)
                    ('<' :: '/' :: 'l' :: 'u' :: 'a' :: ['>']) ::
                  (mid3.data.map Tok.text ++
                    (Tok.closeT (pre.data.length + (13 + c1.data.length)
                          + mid1.data.length + (13 + c2.data.length)
                          + mid2.data.length + 6 + mid3.data.length)
                        ('<' :: '/' :: 'l' :: 'u' :: 'a' :: ['>']) ::
                      post.data.map Tok.text))))))) := by
  unfold tokenize
  have h1 : ("<lua code='" : String).data =
      '<' :: 'l' :: 'u' :: 'a' :: ' ' :: 'c' :: 'o' :: 'd' :: 'e' :: '=' ::
        ['\''] := rfl
  have h2 : ("'>" : String).data = '\'' :: ['>'] := rfl
  have h3 : ("</lua>" : String).data =
      '<' :: '/' :: 'l' :: 'u' :: 'a' :: ['>'] := rfl
  have hdata : (pre ++ "<lua code='" ++ c1 ++ "'>" ++ mid1 ++ "<lua code='"
      ++ c2 ++ "'>" ++ mid2 ++ "</lua>" ++ mid3 ++ "</lua>" ++ post).data =
      pre.data ++ ('<' :: 'l' :: 'u' :: 'a' :: ' ' :: 'c' :: 'o' :: 'd' ::
        'e' :: '=' :: '\'' :: (c1.data ++ ('\'' :: '>' ::
        (mid1.data ++ ('<' :: 'l' :: 'u' :: 'a' :: ' ' :: 'c' :: 'o' :: 'd'
          :: 'e' :: '=' :: '\'' :: (c2.data ++ ('\'' :: '>' ::
        (mid2.data ++ ('<' :: '/' :: 'l' :: 'u' :: 'a' :: '>' ::
        (mid3.data ++ ('<' :: '/' :: 'l' :: 'u' :: 'a' :: '>' ::
          post.data))))))))))) := by
    simp [String.data_append, h1, h2, h3]
  rw [hdata]
  rw [scanGo_text pre.data _ 0 hpre]
  rw [Nat.zero_add]
  rw [scanGo_openTag c1.data hc1 _ pre.data.length]
  rw [scanGo_text mid1.data _ _ hmid1]
  rw [scanGo_openTag c2.data hc2 _ _]
  rw [scanGo_text mid2.data _ _ hmid2]
  rw [scanGo_closeTag _ _]
  rw [scanGo_text mid3.data _ _ hmid3]
  rw [scanGo_closeTag _ _]
  rw [scanGo_text_all post.data _ hpost]

theorem renderCore_nested (exec : String → LuaState → Except String LuaState)
    (env : Environment) (pre c1 mid1 c2 mid2 mid3 post : String)
    (st1 st2 : LuaState)
    (hpre : '<' ∉ pre.data) (hc1 : '\'' ∉ c1.data) (hmid1 : '<' ∉ mid1.data)
    (hc2 : '\'' ∉ c2.data) (hmid2 : '<' ∉ mid2.data)
    (hmid3 : '<' ∉ mid3.data) (hpost : '<' ∉ post.data)
    (hexec1 : exec c2 { mkLuaState env with data := mid2 } = .ok st1)
    (hexec2 : exec c1 { st1 with data := mid1 ++ "<lua code='" ++ c2 ++ "'>"
        ++ mid2 ++ "</lua>" ++ mid3 } = .ok st2) :
    renderCore exec env
        (pre ++ "<lua code='" ++ c1 ++ "'>" ++ mid1 ++ "<lua code='" ++ c2
          ++ "'>" ++ mid2 ++ "</lua>" ++ mid3 ++ "</lua>" ++ post) =
      .ok { env := env, lua := st2,
            out := pre.data ++ st2.data.data ++ post.data,
            stack := [],
            trace := [(c2, mid2),
              (c1, mid1 ++ "<lua code='" ++ c2 ++ "'>" ++ mid2 ++ "</lua>"
                ++ mid3)] } := by
  have h1 : ("<lua code='" : String).data =
      '<' :: 'l' :: 'u' :: 'a' :: ' ' :: 'c' :: 'o' :: 'd' :: 'e' :: '=' ::
        ['\''] := rfl
  have h2 : ("'>" : String).data = '\'' :: ['>'] := rfl
  have h3 : ("</lua>" : String).data =
      '<' :: '/' :: 'l' :: 'u' :: 'a' :: ['>'] := rfl
  have ht1 : (pre ++ "<lua code='" ++ c1 ++ "'>" ++ mid1 ++ "<lua code='"
      ++ c2 ++ "'>" ++ mid2 ++ "</lua>" ++ mid3 ++ "</lua>" ++ post).data =
      (pre.data ++ ('<' :: 'l' :: 'u' :: 'a' :: ' ' :: 'c' :: 'o' :: 'd' ::
        'e' :: '=' :: '\'' :: (c1.data ++ ('\'' :: '>' ::
        (mid1.data ++ ('<' :: 'l' :: 'u' :: 'a' :: ' ' :: 'c' :: 'o' :: 'd'
          :: 'e' :: '=' :: '\'' :: (c2.data ++ ('\'' :: ['>'])))))))) ++
      (mid2.data ++ ('<' :: '/' :: 'l' :: 'u' :: 'a' :: '>' ::
        (mid3.data ++ ('<' :: '/' :: 'l' :: 'u' :: 'a' :: '>' ::
          post.data)))) := by
    simp [String.data_append, h1, h2, h3]
  have ht2 : (pre ++ "<lua code='" ++ c1 ++ "'>" ++ mid1 ++ "<lua code='"
      ++ c2 ++ "'>" ++ mid2 ++ "</lua>" ++ mid3 ++ "</lua>" ++ post).data =
      (pre.data ++ ('<' :: 'l' :: 'u' :: 'a' :: ' ' :: 'c' :: 'o' :: 'd' ::
        'e' :: '=' :: '\'' :: (c1.data ++ ('\'' :: ['>'])))) ++
      ((mid1.data ++ ('<' :: 'l' :: 'u' :: 'a' :: ' ' :: 'c' :: 'o' :: 'd'
          :: 'e' :: '=' :: '\'' :: (c2.data ++ ('\'' :: '>' ::
        (mid2.data ++ ('<' :: '/' :: 'l' :: 'u' :: 'a' :: '>' ::
          mid3.data)))))) ++
        ('<' :: '/' :: 'l' :: 'u' :: 'a' :: '>' :: post.data)) := by
    simp [String.data_append, h1, h2, h3]
  have hsl1 : sliceStr (pre ++ "<lua code='" ++ c1 ++ "'>" ++ mid1
      ++ "<lua code='" ++ c2 ++ "'>" ++ mid2 ++ "</lua>" ++ mid3 ++ "</lua>"
      ++ post)
      (pre.data.length + (13 + c1.data.length) + mid1.data.length
        + (13 + c2.data.length))
      (pre.data.length + (13 + c1.data.length) + mid1.data.length
        + (13 + c2.data.length) + mid2.data.length) = mid2 := by
    have hs := sliceStr_of_decomp' _ _ mid2.data _
      (pre.data.length + (13 + c1.data.length) + mid1.data.length
        + (13 + c2.data.length))
      (pre.data.length + (13 + c1.data.length) + mid1.data.length
        + (13 + c2.data.length) + mid2.data.length)
      ht1 (by simp; omega) (by simp; omega)
    rwa [strMk_data] at hs
  have hbig : (mid1 ++ "<lua code='" ++ c2 ++ "'>" ++ mid2 ++ "</lua>"
      ++ mid3).data =
      mid1.data ++ ('<' :: 'l' :: 'u' :: 'a' :: ' ' :: 'c' :: 'o' :: 'd' ::
        'e' :: '=' :: '\'' :: (c2.data ++ ('\'' :: '>' ::
        (mid2.data ++ ('<' :: '/' :: 'l' :: 'u' :: 'a' :: '>' ::
          mid3.data))))) := by
    simp [String.data_append, h1, h2, h3]
  have hsl2 : sliceStr (pre ++ "<lua code='" ++ c1 ++ "'>" ++ mid1
      ++ "<lua code='" ++ c2 ++ "'>" ++ mid2 ++ "</lua>" ++ mid3 ++ "</lua>"
      ++ post)
      (pre.data.length + (13 + c1.data.length))
      (pre.data.length + (13 + c1.data.length) + mid1.data.length
        + (13 + c2.data.length) + mid2.data.length + 6 + mid3.data.length)
      = mid1 ++ "<lua code='" ++ c2 ++ "'>" ++ mid2 ++ "</lua>" ++ mid3 := by
    have hs := sliceStr_of_decomp' _ _
      (mid1.data ++ ('<' :: 'l' :: 'u' :: 'a' :: ' ' :: 'c' :: 'o' :: 'd'
          :: 'e' :: '=' :: '\'' :: (c2.data ++ ('\'' :: '>' ::
        (mid2.data ++ ('<' :: '/' :: 'l' :: 'u' :: 'a' :: '>' ::
          mid3.data)))))) _
      (pre.data.length + (13 + c1.data.length))
      (pre.data.length + (13 + c1.data.length) + mid1.data.length
        + (13 + c2.data.length) + mid2.data.length + 6 + mid3.data.length)
      ht2 (by simp; omega) (by simp; omega)
    rw [hs, ← hbig, strMk_data]
  unfold renderCore
  rw [tokenize_nested pre c1 mid1 c2 mid2 mid3 post hpre hc1 hmid1 hc2 hmid2
    hmid3 hpost]
  rw [processToks_text exec _ pre.data _ (initState env) rfl]
  simp only [processToks, initState]
  rw [processToks_text_in exec _ mid1.data _ _ (by simp)]
  simp only [processToks]
  rw [processToks_text_in exec _ mid2.data _ _ (by simp)]
  simp only [processToks, hsl1]
  rw [hexec1]
  dsimp only
  rw [processToks_text_in exec _ mid3.data _ _ (by simp)]
  simp only [processToks, hsl2]
  rw [hexec2]
  dsimp only
  rw [processToks_text_all exec _ post.data _ rfl]
  simp [List.append_assoc]

/-- A Lua engine action for the counterexample: the script `inner` assigns
`"X"` to `data`; any other script leaves the state unchanged. -/
def cexExec : String → LuaState → Except String LuaState :=
  fun c st => .ok (if c = "inner" then { st with data := "X" } else st)

/-- Counterexample to C4 as stated: in the nested template
`A<lua code='outer'>B<lua code='inner'>C</lua>D</lua>E`, the inner slot is
executed first (bound to `C`, producing `X`), but the `data` bound for the
outer occurrence is the original source substring
`B<lua code='inner'>C</lua>D` — not `BXD`, which it would be if the outer
slot's captured content reflected the inner occurrence's substituted
result.  Line 107 slices `source`, the original template. -/
theorem nested_capture_cex :
    renderTrace cexExec Environment.defaultEnv
        "A<lua code='outer'>B<lua code='inner'>C</lua>D</lua>E" =
      [("inner", "C"), ("outer", "B<lua code='inner'>C</lua>D")] ∧
    ("B<lua code='inner'>C</lua>D" : String) ≠ "B" ++ "X" ++ "D" := by
  constructor
  · rfl
  · decide

/-- C4 amended: with nested occurrences of the reserved element, the inner
occurrence's close tag is reached first, so the inner slot is fully
resolved before the outer occurrence's close tag is processed (first trace
entry); but the outer slot's captured content is the original template
substring between its offsets, containing the inner occurrence's original
source text unchanged, not the inner occurrence's substituted result. -/
theorem render_nested_trace
    (exec : String → LuaState → Except String LuaState) (env : Environment)
    (pre c1 mid1 c2 mid2 mid3 post : String) (st1 st2 : LuaState)
    (hpre : '<' ∉ pre.data) (hc1 : '\'' ∉ c1.data) (hmid1 : '<' ∉ mid1.data)
    (hc2 : '\'' ∉ c2.data) (hmid2 : '<' ∉ mid2.data)
    (hmid3 : '<' ∉ mid3.data) (hpost : '<' ∉ post.data)
    (hexec1 : exec c2 { mkLuaState env with data := mid2 } = .ok st1)
    (hexec2 : exec c1 { st1 with data := mid1 ++ "<lua code='" ++ c2 ++ "'>"
        ++ mid2 ++ "</lua>" ++ mid3 } = .ok st2) :
    renderTrace exec env
        (pre ++ "<lua code='" ++ c1 ++ "'>" ++ mid1 ++ "<lua code='" ++ c2
          ++ "'>" ++ mid2 ++ "</lua>" ++ mid3 ++ "</lua>" ++ post) =
      [(c2, mid2),
       (c1, mid1 ++ "<lua code='" ++ c2 ++ "'>" ++ mid2 ++ "</lua>"
         ++ mid3)] := by
  unfold renderTrace
  rw [renderCore_nested exec env pre c1 mid1 c2 mid2 mid3 post st1 st2 hpre
    hc1 hmid1 hc2 hmid2 hmid3 hpost hexec1 hexec2]

/-- Witness for the amended C4 on the counterexample's template shape. -/
theorem render_nested_trace_witness :
    renderTrace cexExec Environment.defaultEnv
        ("A" ++ "<lua code='" ++ "outer" ++ "'>" ++ "B" ++ "<lua code='"
          ++ "inner" ++ "'>" ++ "C" ++ "</lua>" ++ "D" ++ "</lua>" ++ "E") =
      [("inner", "C"),
       ("outer", "B" ++ "<lua code='" ++ "inner" ++ "'>" ++ "C" ++ "</lua>"
         ++ "D")] :=
  render_nested_trace cexExec Environment.defaultEnv
    "A" "outer" "B" "inner" "C" "D" "E"
    { mkLuaState Environment.defaultEnv with data := "X" }
    { mkLuaState Environment.defaultEnv with
        data := "B" ++ "<lua code='" ++ "inner" ++ "'>" ++ "C" ++ "</lua>"
          ++ "D" }
    (by decide) (by decide) (by decide) (by decide) (by decide) (by decide)
    (by decide) rfl rfl
